import Mathlib

/-
Verification of the simple arithmetic-expression evaluator (main.cpp):
a tokenizer (lexing + count-based structural validation) followed by an
evaluator (shunting-yard-variant rewrite to postfix, then stack evaluation).
The embedding follows the C++ source line by line; IEEE-754 doubles are
modelled exactly by the rationals (all values arising in the verified
statements are small integers, on which double arithmetic is exact), and
the unchecked pops on the operand stack (undefined behavior in the C++
source when the stack is too short) are modelled by an Option result,
with none marking the undefined-behavior point.
-/

/-- Token kinds, mirroring enum class token_type in main.cpp. -/
inductive token_type where
  | unknown
  | number
  | open_bracket
  | close_bracket
  | op_add
  | op_sub
  | op_mul
  | op_div
deriving DecidableEq

/-- Tokens, mirroring class token: a kind, the consumed text, and the numeric
payload (meaningful for number tokens only).  A default-constructed token has
kind unknown, empty text and value 0, matching the C++ default member
initializers; token.clear() resets to this state. -/
structure token where
  type : token_type := token_type.unknown
  text : String := ""
  number : ℚ := 0
deriving DecidableEq

/-- Whitespace test of the C "isspace" in the default locale: space, tab,
newline, vertical tab, form feed, carriage return. -/
def c_isspace (c : Char) : Bool :=
  c = ' ' || c = '\t' || c = '\n' || c = '\x0b' || c = '\x0c' || c = '\r'

/-- Decimal-digit test of the C "isdigit". -/
def c_isdigit (c : Char) : Bool :=
  '0' ≤ c && c ≤ '9'

/-- Numeric value of a decimal digit character. -/
def digitVal (c : Char) : ℕ := c.toNat - Char.toNat '0'

/-- Reads a run of leading decimal digits, returning the accumulated value and
the remaining characters. -/
def readInt : List Char → ℕ → ℕ × List Char
  | [], acc => (acc, [])
  | c :: cs, acc =>
    if c_isdigit c then readInt cs (10 * acc + digitVal c) else (acc, c :: cs)

/-- Models the C library atof on the texts the lexer produces (strings over
digits and the dot): an integer part, then at most one fractional part,
stopping silently at the first character that does not fit — exactly the
"stops at the first invalid character" conversion the program relies on.
Signs, exponents and leading whitespace never occur in lexer texts. -/
def atof (s : String) : ℚ :=
  let p := readInt s.toList 0
  match p.2 with
  | '.' :: cs =>
    let ds := cs.takeWhile c_isdigit
    (p.1 : ℚ) + ((readInt ds 0).1 : ℚ) / ((10 : ℚ) ^ ds.length)
  | _ => (p.1 : ℚ)

namespace tokenizer

/-- Value-character test of tokenizer::is_value: digit or decimal point. -/
def is_value (c : Char) : Bool :=
  c_isdigit c || c = '.'

/-- Operator-or-bracket-character test of tokenizer::is_operator. -/
def is_operator (c : Char) : Bool :=
  c = '+' || c = '-' || c = '*' || c = '/' || c = '(' || c = ')'

/-- Lexer state threaded through the character scan of tokenizer::parse:
the tokens appended so far, the pending accumulated token t, and the error
flag. -/
structure LexState where
  tokens : List token := []
  t : token := {}
  error : Bool := false
deriving DecidableEq

/-- Kind that tokenizer::parse assigns to an operator or bracket character
(the chain of ifs acting on a cleared token; an unmatched character leaves
the cleared kind unknown, unreachable under the is_operator guard). -/
def opTokenType (c : Char) : token_type :=
  if c = '+' then token_type.op_add
  else if c = '-' then token_type.op_sub
  else if c = '*' then token_type.op_mul
  else if c = '/' then token_type.op_div
  else if c = '(' then token_type.open_bracket
  else if c = ')' then token_type.close_bracket
  else token_type.unknown

/-- Finalization of a pending token before it is appended: a number token
gets its value parsed from its text by atof; other kinds are unchanged. -/
def finalizeTok (t : token) : token :=
  if t.type = token_type.number then { t with number := atof t.text } else t

/-- Appends the pending token to the token list when its kind is not unknown
(the push-back guarded by "t.type != token_type::unknown" in the source),
finalizing a pending number via atof. -/
def pushPending (s : LexState) : List token :=
  if s.t.type ≠ token_type.unknown then s.tokens ++ [finalizeTok s.t] else s.tokens

/-- The character scan of tokenizer::parse.  Whitespace is skipped; a value
character accumulates into the pending number token; an operator or bracket
character first appends any pending token, then appends the single-character
operator token and clears the pending token; any other character sets the
error flag and stops the scan (break), leaving the state otherwise
untouched. -/
def parseLoop : List Char → LexState → LexState
  | [], s => s
  | c :: cs, s =>
    if c_isspace c then parseLoop cs s
    else if is_value c then
      parseLoop cs { s with t := { s.t with type := token_type.number, text := s.t.text.push c } }
    else if is_operator c then
      parseLoop cs
        { tokens := pushPending s ++ [{ type := opTokenType c, text := String.singleton c, number := 0 }],
          t := {}, error := s.error }
    else { s with error := true }

/-- Count of tokens of a given kind, as accumulated by the switch in
tokenizer::verify_tokenlist. -/
def countOfType (tt : token_type) (l : List token) : ℕ :=
  List.countP (fun t => decide (t.type = tt)) l

/-- Count of operator tokens (Add + Sub + Mul + Div) of
tokenizer::verify_tokenlist. -/
def operationsCount (l : List token) : ℕ :=
  countOfType token_type.op_add l + countOfType token_type.op_sub l +
    countOfType token_type.op_mul l + countOfType token_type.op_div l

/-- Kind-is-unknown scan of the defensive default case of the switch in
tokenizer::verify_tokenlist (the only kind outside the seven valid ones). -/
def hasUnknownKind (l : List token) : Bool :=
  l.any (fun t => decide (t.type = token_type.unknown))

/-- The error flag after tokenizer::verify_tokenlist: unchanged if a lexing
error already occurred (early return); otherwise set when some token kind is
invalid, when bracket counts differ, or when the number count differs from
the operator count plus one. -/
def verify_tokenlist (err : Bool) (l : List token) : Bool :=
  if err then err
  else
    hasUnknownKind l ||
      decide (countOfType token_type.open_bracket l ≠ countOfType token_type.close_bracket l) ||
      decide (countOfType token_type.number l ≠ operationsCount l + 1)

/-- Result of a full tokenizer run: the finalized token list and the error
flag. -/
structure TkResult where
  tokens : List token
  error : Bool
deriving DecidableEq

/-- Full tokenizer::parse on a character list: run the scan from the initial
state, append any pending token at end of input (this append happens even
after an error break — the loop exit falls through to the same
finalization), then apply verify_tokenlist. -/
def parseChars (cs : List Char) : TkResult :=
  let s := parseLoop cs {}
  let toks := pushPending s
  { tokens := toks, error := verify_tokenlist s.error toks }

/-- Full tokenizer::parse on a source string. -/
def parse (src : String) : TkResult :=
  parseChars src.toList

end tokenizer

namespace eval

/-- Number-token test of eval::is_number. -/
def is_number (tk : token) : Bool :=
  decide (tk.type = token_type.number)

/-- Operator-token test of eval::is_operator. -/
def is_operator (tk : token) : Bool :=
  decide (tk.type = token_type.op_add) || decide (tk.type = token_type.op_sub) ||
    decide (tk.type = token_type.op_mul) || decide (tk.type = token_type.op_div)

/-- Open-bracket test of eval::is_open_bracket. -/
def is_open_bracket (tk : token) : Bool :=
  decide (tk.type = token_type.open_bracket)

/-- Close-bracket test of eval::is_close_bracket. -/
def is_close_bracket (tk : token) : Bool :=
  decide (tk.type = token_type.close_bracket)

/-- Bracket test of eval::is_bracket. -/
def is_bracket (tk : token) : Bool :=
  is_open_bracket tk || is_close_bracket tk

/-- Operator precedence of eval::precedence: 10 for Add and Sub, 20 for Mul
and Div, -1 for every other kind. -/
def precedence (tk : token) : ℤ :=
  match tk.type with
  | token_type.op_add => 10
  | token_type.op_sub => 10
  | token_type.op_mul => 20
  | token_type.op_div => 20
  | _ => -1

/-- State of the rewrite loop of eval::to_postfix: the output sequence, the
operator stack (head = top, matching push/pop on one end), and the error
flag. -/
structure PfState where
  out : List token
  stk : List token
  error : Bool
deriving DecidableEq

/-- The close-bracket inner while of eval::to_postfix: pop until an open
bracket is popped (discarding it); a popped operator (any non-bracket) is
emitted to the output, a popped bracket is discarded. -/
def closePop (out stk : List token) : List token × List token :=
  match stk with
  | [] => (out, [])
  | t :: rest =>
    if is_open_bracket t then (out, rest)
    else if is_bracket t then closePop out rest
    else closePop (out ++ [t]) rest

/-- The token loop of eval::to_postfix.  Numbers go to the output; an
operator is pushed when the stack is empty, when a bracket is on top, or when
its precedence is strictly greater than that of the top operator — otherwise
the whole stack is popped and emitted and the operator is pushed; an open
bracket is pushed; a close bracket triggers the closePop while; any other
kind sets the error flag and stops the loop (break). -/
def pfLoop : List token → PfState → PfState
  | [], s => s
  | term :: rest, s =>
    if is_number term then pfLoop rest { s with out := s.out ++ [term] }
    else if is_operator term then
      match s.stk with
      | [] => pfLoop rest { s with stk := [term] }
      | top :: stkrest =>
        if is_bracket top then pfLoop rest { s with stk := term :: top :: stkrest }
        else if precedence term > precedence top then
          pfLoop rest { s with stk := term :: top :: stkrest }
        else pfLoop rest { out := s.out ++ top :: stkrest, stk := [term], error := s.error }
    else if is_open_bracket term then pfLoop rest { s with stk := term :: s.stk }
    else if is_close_bracket term then
      let p := closePop s.out s.stk
      pfLoop rest { s with out := p.1, stk := p.2 }
    else { s with error := true }

/-- Bracket scan of eval::check_infix_for_brackets: true when some token of
the list is a bracket. -/
def checkForBrackets (tl : List token) : Bool :=
  tl.any is_bracket

/-- Full eval::to_postfix: run the loop from empty output and stack, flush
the remaining stack to the output regardless of kind (the finalization
while), and set the error flag if the rewritten sequence still holds a
bracket.  Returns the rewritten token list and the error flag. -/
def toRpn (tl : List token) : List token × Bool :=
  let s := pfLoop tl { out := [], stk := [], error := false }
  let outTokens := s.out ++ s.stk
  (outTokens, s.error || checkForBrackets outTokens)

/-- The arithmetic switch of eval::solve: x is the second pop (left operand),
y the first pop (right operand).  Division is exact rational division,
modelling the double division of the source on the values considered. -/
def applyOp (tt : token_type) (x y : ℚ) : ℚ :=
  match tt with
  | token_type.op_add => x + y
  | token_type.op_sub => x - y
  | token_type.op_mul => x * y
  | token_type.op_div => x / y
  | _ => 0

/-- The postfix-evaluation loop of eval::solve over the operand stack
(head = top).  A number is pushed; an operator pops the right operand then
the left operand and pushes the result as a fresh number token with empty
text; popping with fewer than two elements on the stack is the undefined
behavior of the source, modelled as none; any other token kind sets the
error flag and stops the loop (break), returning the stack as it stands. -/
def evalLoop : List token → List token → Option (List token × Bool)
  | [], stk => some (stk, false)
  | term :: rest, stk =>
    if is_number term then evalLoop rest (term :: stk)
    else if is_operator term then
      match stk with
      | y :: x :: stk2 =>
        evalLoop rest
          ({ type := token_type.number, text := "",
             number := applyOp term.type x.number y.number } :: stk2)
      | _ => none
    else some (stk, true)

/-- Observable state of the evaluator after eval::solve: the (rewritten)
token list, the error flag, and the result member. -/
structure EvalState where
  tokens : List token
  error : Bool
  result : ℚ
deriving DecidableEq

/-- Full eval::solve: rewrite to postfix; on a rewrite error return at once
(result stays 0).  Otherwise run the evaluation loop and then read the top of
the operand stack into the result unconditionally — reading the top of an
empty stack is the undefined behavior of the source, modelled as none. -/
def solve (tl : List token) : Option EvalState :=
  let p := toRpn tl
  if p.2 then some { tokens := p.1, error := true, result := 0 }
  else
    match evalLoop p.1 [] with
    | none => none
    | some (stk, e) =>
      match stk with
      | v :: _ => some { tokens := p.1, error := e, result := v.number }
      | [] => none

/-- Result query: the numeric result when solve completed with the error flag
unset, none on an error or on undefined behavior. -/
def resultOf (tl : List token) : Option ℚ :=
  match solve tl with
  | some es => if es.error then none else some es.result
  | none => none

end eval

/-- Modelled from the spec: the pop step of the textbook shunting-yard
algorithm quoted in the specification ("While there is an operator on the top
of the stack with greater precedence: pop operators from the stack onto the
output queue", with the usual greater-or-equal rule for left-associative
operators and brackets acting as barriers).  Pops the operators of
greater-or-equal precedence from the stack, returning them in pop order
together with the remaining stack. -/
def popGE (t : token) (stk : List token) : List token × List token :=
  match stk with
  | [] => ([], [])
  | x :: rest =>
    if eval.is_bracket x then ([], x :: rest)
    else if eval.precedence t ≤ eval.precedence x then
      let p := popGE t rest
      (x :: p.1, p.2)
    else ([], x :: rest)

/-- Modelled from the spec: the token loop of the standard-precedence
reference rewrite (textbook shunting-yard), for comparison with the
non-standard flush rule of eval::to_postfix. -/
def refPfLoop : List token → List token → List token → List token × List token
  | [], out, stk => (out, stk)
  | t :: rest, out, stk =>
    if eval.is_number t then refPfLoop rest (out ++ [t]) stk
    else if eval.is_operator t then
      let p := popGE t stk
      refPfLoop rest (out ++ p.1) (t :: p.2)
    else if eval.is_open_bracket t then refPfLoop rest out (t :: stk)
    else
      let p := eval.closePop out stk
      refPfLoop rest p.1 p.2

/-- Modelled from the spec: a standard-precedence reference evaluation of an
infix token sequence — textbook shunting-yard rewrite followed by the same
stack evaluation of the postfix output. -/
def refResult (tl : List token) : Option ℚ :=
  let p := refPfLoop tl [] []
  match eval.evalLoop (p.1 ++ p.2) [] with
  | some (v :: _, false) => some v.number
  | _ => none

/-- No-two-adjacent-numbers relation used to state the lexer invariant that a
number token is never immediately followed by another number token. -/
def NoNN (a b : token) : Prop :=
  eval.is_number a = false ∨ eval.is_number b = false

/-- Count of number tokens in a list. -/
def numCountT (l : List token) : ℕ :=
  List.countP eval.is_number l

/-- Count of operator tokens in a list. -/
def opCountT (l : List token) : ℕ :=
  List.countP eval.is_operator l

/-- Alternating infix shape: a number, then operator-number pairs.  This is
the shape every bracket-free token sequence accepted by the tokenizer has. -/
inductive AltExpr : List token → Prop where
  | single (n : token) : eval.is_number n = true → AltExpr [n]
  | cons (n o : token) (rest : List token) :
      eval.is_number n = true → eval.is_operator o = true → AltExpr rest →
      AltExpr (n :: o :: rest)

/-- Source text of the first worked example of the specification. -/
def srcA : String := "2+3*4"

/-- Source text of the second worked example of the specification. -/
def srcB : String := "(2+3)*4"

/-- Source text exhibiting the non-standard full-stack flush. -/
def srcC : String := "1+2*3*4"

/-- Source text with a trailing operator (structural error example). -/
def srcTrail : String := "2+"

/-- Source text with unbalanced brackets (structural error example). -/
def srcUnbal : String := "((2+3)"

/-- Source text whose digits are separated by a space. -/
def srcWS : String := "1 2"

/-- The empty source text. -/
def srcEmpty : String := ""

/-- Source text accepted by the tokenizer on which the postfix evaluation of
the source underflows the operand stack. -/
def srcCE : String := "2(+)3"

/-- Bracket-free source text used as a concrete instance of the
underflow-freedom theorem. -/
def srcPlain : String := "2+3"

/-- Source text with an unrecognized character after an accumulated digit. -/
def srcHash : String := "3#7"

/-- Concrete Add token as the lexer produces it. -/
def tAdd : token := { type := token_type.op_add, text := "+", number := 0 }

/-- Concrete Mul token as the lexer produces it. -/
def tMul : token := { type := token_type.op_mul, text := "*", number := 0 }

/-- Concrete Sub token as the lexer produces it. -/
def tSub : token := { type := token_type.op_sub, text := "-", number := 0 }

/-- Concrete open-bracket token as the lexer produces it. -/
def tOpen : token := { type := token_type.open_bracket, text := "(", number := 0 }

/-- Concrete close-bracket token as the lexer produces it. -/
def tClose : token := { type := token_type.close_bracket, text := ")", number := 0 }

/-- Concrete Number token of value 1. -/
def tN1 : token := { type := token_type.number, text := "1", number := 1 }

/-- Concrete Number token of value 2. -/
def tN2 : token := { type := token_type.number, text := "2", number := 2 }

/-- Concrete Number token of value 3. -/
def tN3 : token := { type := token_type.number, text := "3", number := 3 }

/-- Concrete Number token of value 4. -/
def tN4 : token := { type := token_type.number, text := "4", number := 4 }

/-- Concrete Number token of value 10. -/
def tN10 : token := { type := token_type.number, text := "10", number := 10 }

/- Helper lemmas on token-kind predicates. -/

lemma is_op_not_num {t : token} (h : eval.is_operator t = true) : eval.is_number t = false := by
  rcases t with ⟨tt, tx, tn⟩
  cases tt <;> simp_all [eval.is_operator, eval.is_number]

lemma is_op_not_br {t : token} (h : eval.is_operator t = true) : eval.is_bracket t = false := by
  rcases t with ⟨tt, tx, tn⟩
  cases tt <;>
    simp_all [eval.is_operator, eval.is_bracket, eval.is_open_bracket, eval.is_close_bracket]

lemma is_num_not_op {t : token} (h : eval.is_number t = true) : eval.is_operator t = false := by
  rcases t with ⟨tt, tx, tn⟩
  cases tt <;> simp_all [eval.is_operator, eval.is_number]

lemma is_num_not_br {t : token} (h : eval.is_number t = true) : eval.is_bracket t = false := by
  rcases t with ⟨tt, tx, tn⟩
  cases tt <;>
    simp_all [eval.is_number, eval.is_bracket, eval.is_open_bracket, eval.is_close_bracket]

/- Step lemmas for the lexer scan. -/

lemma parseLoop_space {c : Char} (h : c_isspace c = true) (cs : List Char)
    (st : tokenizer.LexState) :
    tokenizer.parseLoop (c :: cs) st = tokenizer.parseLoop cs st := by
  simp [tokenizer.parseLoop, h]

lemma parseLoop_value {c : Char} (h1 : c_isspace c = false) (h2 : tokenizer.is_value c = true)
    (cs : List Char) (st : tokenizer.LexState) :
    tokenizer.parseLoop (c :: cs) st =
      tokenizer.parseLoop cs
        { st with t := { st.t with type := token_type.number, text := st.t.text.push c } } := by
  simp [tokenizer.parseLoop, h1, h2]

lemma parseLoop_op {c : Char} (h1 : c_isspace c = false) (h2 : tokenizer.is_value c = false)
    (h3 : tokenizer.is_operator c = true) (cs : List Char) (st : tokenizer.LexState) :
    tokenizer.parseLoop (c :: cs) st =
      tokenizer.parseLoop cs
        { tokens := tokenizer.pushPending st ++
            [{ type := tokenizer.opTokenType c, text := String.singleton c, number := 0 }],
          t := {}, error := st.error } := by
  simp [tokenizer.parseLoop, h1, h2, h3]

lemma parseLoop_bad {c : Char} (h1 : c_isspace c = false) (h2 : tokenizer.is_value c = false)
    (h3 : tokenizer.is_operator c = false) (cs : List Char) (st : tokenizer.LexState) :
    tokenizer.parseLoop (c :: cs) st = { st with error := true } := by
  simp [tokenizer.parseLoop, h1, h2, h3]

/-- Finalizing a pending token does not change its kind. -/
lemma finalizeTok_type (t : token) : (tokenizer.finalizeTok t).type = t.type := by
  unfold tokenizer.finalizeTok
  split <;> rfl

/-- The kind assigned to an operator or bracket character is never unknown. -/
lemma opTokenType_ne_unknown {c : Char} (h : tokenizer.is_operator c = true) :
    tokenizer.opTokenType c ≠ token_type.unknown := by
  unfold tokenizer.opTokenType
  unfold tokenizer.is_operator at h
  split_ifs <;> simp_all

/-- Appending the pending token preserves the no-unknown-kind property of the
token list, since the pending token is appended only when its kind is not
unknown. -/
lemma pushPending_kinds {st : tokenizer.LexState}
    (h1 : ∀ t ∈ st.tokens, t.type ≠ token_type.unknown) :
    ∀ t ∈ tokenizer.pushPending st, t.type ≠ token_type.unknown := by
  unfold tokenizer.pushPending
  split_ifs with hp
  · intro t ht
    rcases List.mem_append.1 ht with h | h
    · exact h1 t h
    · rcases List.mem_singleton.1 h with rfl
      rw [finalizeTok_type]
      exact hp
  · exact h1

/-- Invariant of the lexer scan: the token list holds no unknown-kind token
and the pending token is of unknown or number kind. -/
lemma parseLoop_kinds : ∀ (cs : List Char) (st : tokenizer.LexState),
    (∀ t ∈ st.tokens, t.type ≠ token_type.unknown) →
    (st.t.type = token_type.unknown ∨ st.t.type = token_type.number) →
    (∀ t ∈ (tokenizer.parseLoop cs st).tokens, t.type ≠ token_type.unknown) ∧
      ((tokenizer.parseLoop cs st).t.type = token_type.unknown ∨
        (tokenizer.parseLoop cs st).t.type = token_type.number) := by
  intro cs
  induction cs with
  | nil => intro st h1 h2; exact ⟨h1, h2⟩
  | cons c cs ih =>
    intro st h1 h2
    cases hsp : c_isspace c with
    | true =>
      rw [parseLoop_space hsp]
      exact ih st h1 h2
    | false =>
      cases hv : tokenizer.is_value c with
      | true =>
        rw [parseLoop_value hsp hv]
        exact ih _ h1 (Or.inr rfl)
      | false =>
        cases hop : tokenizer.is_operator c with
        | true =>
          rw [parseLoop_op hsp hv hop]
          refine ih _ ?_ (Or.inl rfl)
          intro t ht
          rcases List.mem_append.1 ht with h | h
          · exact pushPending_kinds h1 t h
          · rcases List.mem_singleton.1 h with rfl
            exact opTokenType_ne_unknown hop
        | false =>
          rw [parseLoop_bad hsp hv hop]
          exact ⟨h1, h2⟩

/-- The finalized token list of a tokenizer run holds no unknown-kind
token. -/
lemma parse_no_unknown (s : String) :
    tokenizer.hasUnknownKind (tokenizer.parse s).tokens = false := by
  have h := parseLoop_kinds s.toList {} (by simp) (Or.inl rfl)
  have h2 : ∀ t ∈ (tokenizer.parse s).tokens, t.type ≠ token_type.unknown := by
    unfold tokenizer.parse tokenizer.parseChars
    exact pushPending_kinds h.1
  simp only [tokenizer.hasUnknownKind, List.any_eq_false, decide_eq_true_eq]
  exact h2

/-- Scanning a concatenation whose first part raises no lexing error is
scanning the first part and then the second from the reached state. -/
lemma parseLoop_append : ∀ (a : List Char) (st : tokenizer.LexState) (l : List Char),
    (tokenizer.parseLoop a st).error = false →
    tokenizer.parseLoop (a ++ l) st = tokenizer.parseLoop l (tokenizer.parseLoop a st) := by
  intro a
  induction a with
  | nil => intro st l h; rfl
  | cons c a ih =>
    intro st l h
    rw [List.cons_append]
    cases hsp : c_isspace c with
    | true =>
      rw [parseLoop_space hsp a st] at h
      rw [parseLoop_space hsp (a ++ l) st, parseLoop_space hsp a st]
      exact ih st l h
    | false =>
      cases hv : tokenizer.is_value c with
      | true =>
        rw [parseLoop_value hsp hv a st] at h
        rw [parseLoop_value hsp hv (a ++ l) st, parseLoop_value hsp hv a st]
        exact ih _ l h
      | false =>
        cases hop : tokenizer.is_operator c with
        | true =>
          rw [parseLoop_op hsp hv hop a st] at h
          rw [parseLoop_op hsp hv hop (a ++ l) st, parseLoop_op hsp hv hop a st]
          exact ih _ l h
        | false =>
          rw [parseLoop_bad hsp hv hop a st] at h
          simp at h

/-- C5: tokenizing srcA = "2+3*4" produces [Number(2), Add, Number(3), Mul,
Number(4)] and evaluating yields 14 with no error; tokenizing and evaluating
srcB = "(2+3)*4" yields 20 with no error. -/
theorem C5_worked_examples :
    (tokenizer.parse srcA).error = false ∧
    (tokenizer.parse srcA).tokens = [tN2, tAdd, tN3, tMul, tN4] ∧
    eval.resultOf (tokenizer.parse srcA).tokens = some 14 ∧
    (tokenizer.parse srcB).error = false ∧
    eval.resultOf (tokenizer.parse srcB).tokens = some 20 := by
  have hA : (tokenizer.parse srcA).tokens = [tN2, tAdd, tN3, tMul, tN4] := by decide
  have hA2 : eval.toRpn [tN2, tAdd, tN3, tMul, tN4] = ([tN2, tN3, tN4, tMul, tAdd], false) := by
    decide
  have hA3 : eval.resultOf [tN2, tAdd, tN3, tMul, tN4] = some 14 := by
    simp only [eval.resultOf, eval.solve, hA2]
    norm_num [eval.evalLoop, eval.applyOp, eval.is_number, eval.is_operator, tN2, tN3, tN4,
      tAdd, tMul]
    all_goals decide
  have hB : (tokenizer.parse srcB).tokens = [tOpen, tN2, tAdd, tN3, tClose, tMul, tN4] := by
    decide
  have hB2 : eval.toRpn [tOpen, tN2, tAdd, tN3, tClose, tMul, tN4] =
      ([tN2, tN3, tAdd, tN4, tMul], false) := by decide
  have hB3 : eval.resultOf [tOpen, tN2, tAdd, tN3, tClose, tMul, tN4] = some 20 := by
    simp only [eval.resultOf, eval.solve, hB2]
    norm_num [eval.evalLoop, eval.applyOp, eval.is_number, eval.is_operator, tN2, tN3, tN4,
      tAdd, tMul]
    all_goals decide
  exact ⟨by decide, hA, by rw [hA]; exact hA3, by decide, by rw [hB]; exact hB3⟩

/-- C10: running the tokenizer on the empty string sets the error flag (zero
Number tokens cannot equal zero operator tokens plus one). -/
theorem C10_empty_input : (tokenizer.parse srcEmpty).error = true := by decide

/-- C8: there is an input that passes the lexical and structural checks and
evaluates without error, yet whose computed result differs from the
standard-precedence reference evaluation of the same infix expression (the
full-stack flush misorders srcC = "1+2*3*4": the program computes 28, the
reference 25). -/
theorem C8_flush_misorders :
    ∃ (s : String) (a b : ℚ),
      (tokenizer.parse s).error = false ∧
      eval.resultOf (tokenizer.parse s).tokens = some a ∧
      refResult (tokenizer.parse s).tokens = some b ∧ a ≠ b := by
  have hC : (tokenizer.parse srcC).tokens = [tN1, tAdd, tN2, tMul, tN3, tMul, tN4] := by decide
  have hC2 : eval.toRpn [tN1, tAdd, tN2, tMul, tN3, tMul, tN4] =
      ([tN1, tN2, tN3, tMul, tAdd, tN4, tMul], false) := by decide
  have hC3 : eval.resultOf [tN1, tAdd, tN2, tMul, tN3, tMul, tN4] = some 28 := by
    simp only [eval.resultOf, eval.solve, hC2]
    norm_num [eval.evalLoop, eval.applyOp, eval.is_number, eval.is_operator, tN1, tN2, tN3,
      tN4, tAdd, tMul]
    all_goals decide
  have hC4 : refPfLoop [tN1, tAdd, tN2, tMul, tN3, tMul, tN4] [] [] =
      ([tN1, tN2, tN3, tMul, tN4], [tMul, tAdd]) := by decide
  have hC5 : refResult [tN1, tAdd, tN2, tMul, tN3, tMul, tN4] = some 25 := by
    simp only [refResult, hC4]
    norm_num [eval.evalLoop, eval.applyOp, eval.is_number, eval.is_operator, tN1, tN2, tN3,
      tN4, tAdd, tMul]
    all_goals decide
  exact ⟨srcC, 28, 25, by decide, by rw [hC]; exact hC3, by rw [hC]; exact hC5, by norm_num⟩

/-- C7: in the postfix-evaluation loop the first pop is the right operand and
the second pop the left operand; subtraction computes left minus right and
division left divided by right; the result is pushed as a fresh Number token;
the postfix sequence [Number(10), Number(4), Sub] evaluates to 6. -/
theorem C7_pop_order :
    (∀ (t xt yt : token) (stk rest : List token), eval.is_operator t = true →
        eval.evalLoop (t :: rest) (yt :: xt :: stk) =
          eval.evalLoop rest
            ({ type := token_type.number, text := "",
               number := eval.applyOp t.type xt.number yt.number } :: stk)) ∧
    (∀ a b : ℚ,
        eval.applyOp token_type.op_sub a b = a - b ∧
        eval.applyOp token_type.op_div a b = a / b) ∧
    eval.evalLoop [tN10, tN4, tSub] [] =
      some ([{ type := token_type.number, text := "", number := 6 }], false) := by
  refine ⟨?_, fun a b => ⟨rfl, rfl⟩, ?_⟩
  · intro t xt yt stk rest h
    have hn : eval.is_number t = false := is_op_not_num h
    simp [eval.evalLoop, hn, h]
  · norm_num [eval.evalLoop, eval.applyOp, eval.is_number, eval.is_operator, tN10, tN4, tSub]
    all_goals decide

/-- Witness for C7: the general operator step applied to the Sub token on the
stack [Number(4), Number(10)]. -/
theorem C7_pop_order_witness :
    eval.is_operator tSub = true ∧
      eval.evalLoop [tSub] [tN4, tN10] =
        eval.evalLoop []
          ({ type := token_type.number, text := "",
             number := eval.applyOp tSub.type tN10.number tN4.number } :: []) :=
  ⟨by decide, C7_pop_order.1 tSub tN10 tN4 [] [] (by decide)⟩

/-- C1: in the rewrite loop, when the current token is an operator, the stack
is non-empty and its top is not a bracket, the operator is pushed if its
precedence is strictly greater than that of the top; otherwise the entire
remaining stack is popped and emitted to the output in pop order and the
operator is then pushed. -/
theorem C1_operator_step (term top : token) (stkrest out rest : List token) (e : Bool)
    (hop : eval.is_operator term = true) (hbr : eval.is_bracket top = false) :
    eval.pfLoop (term :: rest) { out := out, stk := top :: stkrest, error := e } =
      (if eval.precedence term > eval.precedence top then
        eval.pfLoop rest { out := out, stk := term :: top :: stkrest, error := e }
      else eval.pfLoop rest { out := out ++ top :: stkrest, stk := [term], error := e }) := by
  have hn : eval.is_number term = false := is_op_not_num hop
  by_cases hpr : eval.precedence term > eval.precedence top <;>
    simp [eval.pfLoop, hn, hop, hbr, hpr]

/-- Witness for C1: the operator step applied to an Add token arriving with a
Mul token on top of the stack (the flush branch fires since 10 is not
strictly greater than 20). -/
theorem C1_operator_step_witness :
    eval.is_operator tAdd = true ∧ eval.is_bracket tMul = false ∧
      eval.pfLoop [tAdd] { out := [], stk := [tMul], error := false } =
        (if eval.precedence tAdd > eval.precedence tMul then
          eval.pfLoop [] { out := [], stk := tAdd :: tMul :: [], error := false }
        else eval.pfLoop [] { out := [] ++ tMul :: [], stk := [tAdd], error := false }) :=
  ⟨by decide, by decide, C1_operator_step tAdd tMul [] [] [] false (by decide) (by decide)⟩

/-- C9: whitespace characters are skipped entirely by the scan (the state,
including the pending number, is untouched), and tokenizing srcWS = "1 2"
yields the single Number token of text "12" and value 12, with no error. -/
theorem C9_whitespace_skipped :
    (∀ (c : Char) (cs : List Char) (st : tokenizer.LexState),
        c_isspace c = true → tokenizer.parseLoop (c :: cs) st = tokenizer.parseLoop cs st) ∧
    (tokenizer.parse srcWS).error = false ∧
    (tokenizer.parse srcWS).tokens =
      [{ type := token_type.number, text := "12", number := 12 }] := by
  refine ⟨?_, by decide, by decide⟩
  intro c cs st h
  simp [tokenizer.parseLoop, h]

/-- Witness for C9: the skip step applied to a space character. -/
theorem C9_whitespace_skipped_witness :
    c_isspace ' ' = true ∧
      tokenizer.parseLoop [' '] ({} : tokenizer.LexState) =
        tokenizer.parseLoop [] ({} : tokenizer.LexState) :=
  ⟨by decide, C9_whitespace_skipped.1 ' ' [] {} (by decide)⟩

/-- Counterexample for C2: the input "2(+)3" passes the tokenizer (error flag
unset) yet its evaluation pops an operand stack holding a single value — the
undefined-behavior point modelled by none. -/
theorem C2_counterexample :
    (tokenizer.parse srcCE).error = false ∧
    eval.solve (tokenizer.parse srcCE).tokens = none := by
  refine ⟨by decide, by decide⟩

/-- Counterexample for C3: on the input "3#7" the scan halts at the character
with the error flag set, but the accumulated pending Number token IS appended
to the token sequence by the end-of-parse finalization, contrary to the
claim. -/
theorem C3_counterexample :
    (tokenizer.parse srcHash).error = true ∧
    (tokenizer.parse srcHash).tokens =
      [{ type := token_type.number, text := "3", number := 3 }] := by
  refine ⟨by decide, by decide⟩

/-- C3 (amended): on reaching the first character that is not whitespace, not
a value character and not in the operator/bracket set, the scan halts with
the error flag set, all further input is discarded, and the token accumulated
up to that point IS appended by the end-of-parse finalization — so the token
list equals the one obtained by parsing just the prefix before the bad
character. -/
theorem C3_bad_char_halt (a b : List Char) (c : Char)
    (h1 : c_isspace c = false) (h2 : tokenizer.is_value c = false)
    (h3 : tokenizer.is_operator c = false)
    (h4 : (tokenizer.parseLoop a {}).error = false) :
    (tokenizer.parseChars (a ++ c :: b)).error = true ∧
    (tokenizer.parseChars (a ++ c :: b)).tokens = (tokenizer.parseChars a).tokens := by
  have hsplit : tokenizer.parseLoop (a ++ c :: b) {} =
      { tokenizer.parseLoop a {} with error := true } := by
    rw [parseLoop_append a {} (c :: b) h4, parseLoop_bad h1 h2 h3]
  constructor
  · unfold tokenizer.parseChars
    rw [hsplit]
    simp [tokenizer.verify_tokenlist]
  · unfold tokenizer.parseChars
    rw [hsplit]
    rfl

/-- Witness for C3 (amended): the bad-character halt on the prefix "3",
character '#', discarded suffix "7". -/
theorem C3_bad_char_halt_witness :
    (tokenizer.parseLoop ['3'] ({} : tokenizer.LexState)).error = false ∧
      (tokenizer.parseChars (['3'] ++ '#' :: ['7'])).error = true ∧
      (tokenizer.parseChars (['3'] ++ '#' :: ['7'])).tokens =
        (tokenizer.parseChars ['3']).tokens :=
  ⟨by decide, C3_bad_char_halt ['3'] ['7'] '#' (by decide) (by decide) (by decide) (by decide)⟩

/-- C4: for every input whose scan raises no lexing error, the tokenizer sets
the error flag if and only if the open- and close-bracket counts differ or
the number count differs from the operator count plus one; in particular the
inputs "2+" and "((2+3)" are rejected. -/
theorem C4_structural_check :
    (∀ s : String, (tokenizer.parseLoop s.toList {}).error = false →
      ((tokenizer.parse s).error = true ↔
        (tokenizer.countOfType token_type.open_bracket (tokenizer.parse s).tokens ≠
           tokenizer.countOfType token_type.close_bracket (tokenizer.parse s).tokens ∨
         tokenizer.countOfType token_type.number (tokenizer.parse s).tokens ≠
           tokenizer.operationsCount (tokenizer.parse s).tokens + 1))) ∧
    (tokenizer.parse srcTrail).error = true ∧ (tokenizer.parse srcUnbal).error = true := by
  refine ⟨?_, by decide, by decide⟩
  intro s hlex
  have hnu := parse_no_unknown s
  have herr : (tokenizer.parse s).error =
      tokenizer.verify_tokenlist false (tokenizer.parse s).tokens := by
    rw [show (tokenizer.parse s).error =
        tokenizer.verify_tokenlist (tokenizer.parseLoop s.toList {}).error
          (tokenizer.parse s).tokens from rfl, hlex]
  rw [herr]
  unfold tokenizer.verify_tokenlist
  simp [hnu, Bool.or_eq_true, decide_eq_true_eq]

/-- Witness for C4: the trailing-operator input "2+" lexes cleanly and is
rejected by the structural check (one Number token against one operator). -/
theorem C4_structural_check_witness :
    (tokenizer.parseLoop srcTrail.toList ({} : tokenizer.LexState)).error = false ∧
      (tokenizer.parse srcTrail).error = true :=
  ⟨by decide, (C4_structural_check.1 srcTrail (by decide)).mpr (Or.inr (by decide))⟩

/-- C6: the rewrite sets the error flag whenever a bracket token survives
into the rewritten sequence, and consequently every run of solve that
finishes with the error flag unset evaluated a postfix sequence free of
bracket tokens. -/
theorem C6_bracket_check : ∀ tl : List token,
    (eval.checkForBrackets ( eval.toRpn tl).1 = true → ( eval.toRpn tl).2 = true) ∧
    (∀ es : eval.EvalState, eval.solve tl = some es → es.error = false →
      eval.checkForBrackets es.tokens = false) := by
  intro tl
  constructor
  · intro h
    unfold eval.toRpn at h ⊢
    simp only at h ⊢
    rw [h]
    simp
  · intro es hsome herr
    unfold eval.solve at hsome
    simp only at hsome
    cases htb : ( eval.toRpn tl).2 with
    | true =>
      rw [htb, if_pos rfl] at hsome
      have heq := Option.some.inj hsome
      rw [← heq] at herr
      simp at herr
    | false =>
      rw [htb, if_neg (by simp)] at hsome
      have hch : eval.checkForBrackets ( eval.toRpn tl).1 = false := by
        by_contra hck
        rw [Bool.not_eq_false] at hck
        have h2 : ( eval.toRpn tl).2 = true := by
          unfold eval.toRpn at hck ⊢
          simp only at hck ⊢
          rw [hck]
          simp
        rw [htb] at h2
        exact absurd h2 (by simp)
      cases hev : eval.evalLoop ( eval.toRpn tl).1 [] with
      | none => rw [hev] at hsome; simp at hsome
      | some p =>
        rw [hev] at hsome
        rcases p with ⟨stk, e⟩
        cases stk with
        | nil => simp at hsome
        | cons v r =>
          simp only at hsome
          have heq := Option.some.inj hsome
          rw [← heq]
          exact hch

/-- Witness for C6: a lone open bracket survives the rewrite and trips the
check, while the successfully solved single-number sequence [Number(2)] holds
no bracket. -/
theorem C6_bracket_check_witness :
    ( eval.toRpn [tOpen]).2 = true ∧ eval.checkForBrackets [tN2] = false :=
  ⟨(C6_bracket_check [tOpen]).1 (by decide),
   (C6_bracket_check [tN2]).2 { tokens := [tN2], error := false, result := 2 }
     (by decide) (by decide)⟩

/- Step lemmas for the postfix-evaluation loop. -/

lemma evalLoop_num {t : token} (hn : eval.is_number t = true) (rest stk : List token) :
    eval.evalLoop (t :: rest) stk = eval.evalLoop rest (t :: stk) := by
  simp [eval.evalLoop, hn]

lemma evalLoop_op_step {t : token} (hn : eval.is_number t = false)
    (ho : eval.is_operator t = true) (rest : List token) (y x : token) (stk : List token) :
    eval.evalLoop (t :: rest) (y :: x :: stk) =
      eval.evalLoop rest
        ({ type := token_type.number, text := "",
           number := eval.applyOp t.type x.number y.number } :: stk) := by
  simp [eval.evalLoop, hn, ho]

/-- Evaluating a concatenation whose first part succeeds without an error
break is evaluating the first part and then the second from the reached
stack. -/
lemma evalLoop_append : ∀ (l₁ l₂ stk stk' : List token),
    eval.evalLoop l₁ stk = some (stk', false) →
    eval.evalLoop (l₁ ++ l₂) stk = eval.evalLoop l₂ stk' := by
  intro l₁
  induction l₁ with
  | nil =>
    intro l₂ stk stk' h
    simp [eval.evalLoop] at h
    rw [List.nil_append, h]
  | cons t rest ih =>
    intro l₂ stk stk' h
    rw [List.cons_append]
    cases hn : eval.is_number t with
    | true =>
      rw [evalLoop_num hn] at h
      rw [evalLoop_num hn]
      exact ih l₂ (t :: stk) stk' h
    | false =>
      cases ho : eval.is_operator t with
      | true =>
        match stk with
        | [] => simp [eval.evalLoop, hn, ho] at h
        | [y] => simp [eval.evalLoop, hn, ho] at h
        | y :: x :: s3 =>
          rw [evalLoop_op_step hn ho] at h
          rw [evalLoop_op_step hn ho]
          exact ih l₂ _ stk' h
      | false =>
        simp [eval.evalLoop, hn, ho] at h

/-- Evaluating a run of operators on a strictly longer stack of values never
underflows: each operator consumes two values and produces one. -/
lemma evalLoop_ops : ∀ (ops vals : List token),
    (∀ t ∈ ops, eval.is_operator t = true) →
    ops.length < vals.length →
    ∃ vals', eval.evalLoop ops vals = some (vals', false) ∧
      vals'.length + ops.length = vals.length := by
  intro ops
  induction ops with
  | nil =>
    intro vals h hlen
    exact ⟨vals, rfl, by simp⟩
  | cons o ops ih =>
    intro vals hall hlen
    have ho : eval.is_operator o = true := hall o (List.mem_cons_self o ops)
    have hn : eval.is_number o = false := is_op_not_num ho
    match vals, hlen with
    | [], hlen => simp at hlen
    | [y], hlen => simp at hlen
    | y :: x :: v, hlen =>
      rw [evalLoop_op_step hn ho]
      obtain ⟨vals', hv, hl⟩ := ih
        ({ type := token_type.number, text := "",
           number := eval.applyOp o.type x.number y.number } :: v)
        (fun t ht => hall t (List.mem_cons_of_mem o ht))
        (by simp at hlen ⊢; omega)
      refine ⟨vals', hv, ?_⟩
      simp at hl ⊢
      omega

/- Lexer invariant: no number token is immediately followed by another
number token, because a pending number is only ever appended together with
the operator or bracket token that terminated it. -/

/-- The kind assigned to an operator or bracket character is never the
number kind. -/
lemma opTokenType_ne_number (c : Char) : tokenizer.opTokenType c ≠ token_type.number := by
  unfold tokenizer.opTokenType
  split_ifs <;> simp

/-- Appending the pending token preserves the no-adjacent-numbers chain, as
long as the last token of the list is not a number. -/
lemma pushPending_chain {st : tokenizer.LexState}
    (h1 : List.Chain' NoNN st.tokens)
    (h2 : ∀ x ∈ st.tokens.getLast?, eval.is_number x = false) :
    List.Chain' NoNN (tokenizer.pushPending st) := by
  unfold tokenizer.pushPending
  split_ifs
  · refine List.Chain'.append h1 (List.chain'_singleton _) ?_
    intro x hx y hy
    exact Or.inl (h2 x hx)
  · exact h1

/-- Invariant of the lexer scan: the token list is a no-adjacent-numbers
chain whose last element is never a number (a number can only sit at the very
end after the final pending append). -/
lemma parseLoop_chain : ∀ (cs : List Char) (st : tokenizer.LexState),
    List.Chain' NoNN st.tokens →
    (∀ x ∈ st.tokens.getLast?, eval.is_number x = false) →
    List.Chain' NoNN (tokenizer.parseLoop cs st).tokens ∧
      (∀ x ∈ (tokenizer.parseLoop cs st).tokens.getLast?, eval.is_number x = false) := by
  intro cs
  induction cs with
  | nil => intro st h1 h2; exact ⟨h1, h2⟩
  | cons c cs ih =>
    intro st h1 h2
    cases hsp : c_isspace c with
    | true =>
      rw [parseLoop_space hsp]
      exact ih st h1 h2
    | false =>
      cases hv : tokenizer.is_value c with
      | true =>
        rw [parseLoop_value hsp hv]
        exact ih _ h1 h2
      | false =>
        cases hop : tokenizer.is_operator c with
        | true =>
          rw [parseLoop_op hsp hv hop]
          set ot : token :=
            { type := tokenizer.opTokenType c, text := String.singleton c, number := 0 }
            with hot
          have hopnum : eval.is_number ot = false := by
            rw [hot]
            simp [eval.is_number, opTokenType_ne_number c]
          refine ih _ ?_ ?_
          · refine List.Chain'.append (pushPending_chain h1 h2) (List.chain'_singleton _) ?_
            intro x hx y hy
            rw [List.head?_cons, Option.mem_some_iff] at hy
            rw [← hy]
            exact Or.inr hopnum
          · intro x hx
            have hlast : (tokenizer.pushPending st ++ [ot]).getLast? = some ot := by simp
            rw [hlast, Option.mem_some_iff] at hx
            rw [← hx]
            exact hopnum
        | false =>
          rw [parseLoop_bad hsp hv hop]
          exact ⟨h1, h2⟩

/-- The finalized token list of a tokenizer run is a no-adjacent-numbers
chain. -/
lemma parse_chain (s : String) : List.Chain' NoNN (tokenizer.parse s).tokens := by
  have h := parseLoop_chain s.toList {} (by simp) (by simp)
  exact pushPending_chain h.1 h.2

/- Counting lemmas connecting the verifier counts with the number and
operator counts. -/

lemma numCountT_cons (t : token) (l : List token) :
    numCountT (t :: l) = numCountT l + if eval.is_number t then 1 else 0 :=
  List.countP_cons eval.is_number t l

lemma opCountT_cons (t : token) (l : List token) :
    opCountT (t :: l) = opCountT l + if eval.is_operator t then 1 else 0 :=
  List.countP_cons eval.is_operator t l

/-- The verifier count of number tokens is the number count. -/
lemma countOfType_number (l : List token) :
    tokenizer.countOfType token_type.number l = numCountT l := rfl

/-- The verifier operator count (Add + Sub + Mul + Div) is the operator
count. -/
lemma operationsCount_eq (l : List token) : tokenizer.operationsCount l = opCountT l := by
  induction l with
  | nil => rfl
  | cons t rest ih =>
    simp only [tokenizer.operationsCount, tokenizer.countOfType, opCountT,
      List.countP_cons] at ih ⊢
    rcases t with ⟨tt, tx, tn⟩
    cases tt <;> simp [eval.is_operator] <;> omega

/-- On a list of numbers and operators the two counts add up to the
length. -/
lemma count_sum : ∀ l : List token,
    (∀ t ∈ l, eval.is_number t = true ∨ eval.is_operator t = true) →
    numCountT l + opCountT l = l.length := by
  intro l
  induction l with
  | nil => intro h; rfl
  | cons t rest ih =>
    intro h
    have ht := h t (List.mem_cons_self t rest)
    have hr := ih (fun x hx => h x (List.mem_cons_of_mem t hx))
    rw [numCountT_cons, opCountT_cons, List.length_cons]
    rcases ht with ht | ht
    · rw [ht, is_num_not_op ht]
      simp
      omega
    · rw [ht, is_op_not_num ht]
      simp
      omega

/-- In a no-adjacent-numbers chain at most every other element is a number:
twice the number count is at most the length plus one. -/
theorem chainNoNN_bound : ∀ (l : List token), List.Chain' NoNN l →
    2 * numCountT l ≤ l.length + 1
  | [] => fun _ => by simp [numCountT]
  | [a] => fun _ => by
      rw [numCountT_cons]
      cases h : eval.is_number a <;> simp [numCountT]
  | a :: b :: rest => fun h => by
      rw [List.chain'_cons] at h
      obtain ⟨hab, hrest⟩ := h
      have ih1 := chainNoNN_bound (b :: rest) hrest
      cases ha : eval.is_number a with
      | false =>
        rw [numCountT_cons, ha]
        simp only [List.length_cons] at ih1 ⊢
        simp
        omega
      | true =>
        have hb : eval.is_number b = false := by
          rcases hab with h | h
          · rw [ha] at h; exact absurd h (by simp)
          · exact h
        have ih2 := chainNoNN_bound rest hrest.tail
        rw [numCountT_cons, numCountT_cons, ha, hb]
        simp only [List.length_cons]
        simp
        omega

/-- A bracket-free token list of numbers and operators with no two adjacent
numbers and exactly one more number than operators has the alternating infix
shape. -/
theorem altOfCounts : ∀ (l : List token),
    (∀ t ∈ l, eval.is_number t = true ∨ eval.is_operator t = true) →
    List.Chain' NoNN l → numCountT l = opCountT l + 1 → AltExpr l
  | [] => by
      intro _ _ hc
      simp [numCountT, opCountT] at hc
  | [a] => by
      intro hall _ hc
      rcases hall a (List.mem_cons_self a []) with h | h
      · exact AltExpr.single a h
      · rw [numCountT_cons, opCountT_cons, is_op_not_num h, h] at hc
        simp [numCountT, opCountT] at hc
  | a :: b :: rest => by
      intro hall hch hc
      rw [List.chain'_cons] at hch
      obtain ⟨hab, hrest⟩ := hch
      cases ha : eval.is_number a with
      | false =>
        have hao : eval.is_operator a = true := by
          rcases hall a (List.mem_cons_self a _) with h | h
          · rw [ha] at h; exact absurd h (by simp)
          · exact h
        have hbnd := chainNoNN_bound (b :: rest) hrest
        have hsum := count_sum (b :: rest)
          (fun t ht => hall t (List.mem_cons_of_mem a ht))
        rw [numCountT_cons, opCountT_cons, ha, hao] at hc
        simp at hc
        omega
      | true =>
        have hb : eval.is_number b = false := by
          rcases hab with h | h
          · rw [ha] at h; exact absurd h (by simp)
          · exact h
        have hbo : eval.is_operator b = true := by
          rcases hall b (List.mem_cons_of_mem a (List.mem_cons_self b rest)) with h | h
          · rw [hb] at h; exact absurd h (by simp)
          · exact h
        have hrec : numCountT rest = opCountT rest + 1 := by
          rw [numCountT_cons, numCountT_cons, opCountT_cons, opCountT_cons,
            ha, hb, hbo, is_num_not_op ha] at hc
          simp at hc
          omega
        exact AltExpr.cons a b rest ha hbo
          (altOfCounts rest
            (fun t ht => hall t (List.mem_cons_of_mem a (List.mem_cons_of_mem b ht)))
            hrest.tail hrec)

/- Step lemmas for the rewrite loop. -/

lemma pfLoop_num {t : token} (hn : eval.is_number t = true) (rest : List token)
    (s : eval.PfState) :
    eval.pfLoop (t :: rest) s = eval.pfLoop rest { s with out := s.out ++ [t] } := by
  simp [eval.pfLoop, hn]

lemma pfLoop_op_nil {t : token} (hn : eval.is_number t = false)
    (ho : eval.is_operator t = true) (rest : List token) (out : List token) (e : Bool) :
    eval.pfLoop (t :: rest) { out := out, stk := [], error := e } =
      eval.pfLoop rest { out := out, stk := [t], error := e } := by
  simp [eval.pfLoop, hn, ho]

lemma pfLoop_op_cons {t top : token} (hn : eval.is_number t = false)
    (ho : eval.is_operator t = true) (hbr : eval.is_bracket top = false)
    (rest stkrest out : List token) (e : Bool) :
    eval.pfLoop (t :: rest) { out := out, stk := top :: stkrest, error := e } =
      (if eval.precedence t > eval.precedence top then
        eval.pfLoop rest { out := out, stk := t :: top :: stkrest, error := e }
      else eval.pfLoop rest { out := out ++ top :: stkrest, stk := [t], error := e }) := by
  by_cases hpr : eval.precedence t > eval.precedence top <;> simp [eval.pfLoop, hn, ho, hbr, hpr]

/-- Main invariant of the rewrite loop on an alternating bracket-free input:
starting from a state whose stack holds only operators, whose output is
bracket-free and evaluates without error to a value stack exactly as long as
the operator stack, the loop finishes without error in a state of the same
shape whose value stack is one longer than the operator stack. -/
theorem pfLoop_alt : ∀ (l : List token), AltExpr l → ∀ (out stk vals : List token),
    (∀ t ∈ stk, eval.is_operator t = true) →
    (∀ t ∈ out, eval.is_bracket t = false) →
    eval.evalLoop out [] = some (vals, false) →
    vals.length = stk.length →
    ∃ out' stk' vals',
      eval.pfLoop l { out := out, stk := stk, error := false } =
        { out := out', stk := stk', error := false } ∧
      (∀ t ∈ stk', eval.is_operator t = true) ∧
      (∀ t ∈ out', eval.is_bracket t = false) ∧
      eval.evalLoop out' [] = some (vals', false) ∧
      vals'.length = stk'.length + 1 := by
  intro l hAlt
  induction hAlt with
  | single n hn =>
    intro out stk vals hstk hout hev hlen
    rw [pfLoop_num hn]
    refine ⟨out ++ [n], stk, n :: vals, rfl, hstk, ?_, ?_, by simp [hlen]⟩
    · intro t ht
      rcases List.mem_append.1 ht with h | h
      · exact hout t h
      · rcases List.mem_singleton.1 h with rfl
        exact is_num_not_br hn
    · rw [evalLoop_append out [n] [] vals hev, evalLoop_num hn]
      rfl
  | cons n o rest hn ho hrest ih =>
    intro out stk vals hstk hout hev hlen
    rw [pfLoop_num hn]
    have hno : eval.is_number o = false := is_op_not_num ho
    have hev1 : eval.evalLoop (out ++ [n]) [] = some (n :: vals, false) := by
      rw [evalLoop_append out [n] [] vals hev, evalLoop_num hn]
      rfl
    have hout1 : ∀ t ∈ out ++ [n], eval.is_bracket t = false := by
      intro t ht
      rcases List.mem_append.1 ht with h | h
      · exact hout t h
      · rcases List.mem_singleton.1 h with rfl
        exact is_num_not_br hn
    cases stk with
    | nil =>
      rw [pfLoop_op_nil hno ho]
      refine ih (out ++ [n]) [o] (n :: vals) ?_ hout1 hev1 ?_
      · intro t ht
        rcases List.mem_singleton.1 ht with rfl
        exact ho
      · simp only [List.length_cons, List.length_nil] at hlen ⊢
        omega
    | cons top stkrest =>
      have htop : eval.is_operator top = true := hstk top (List.mem_cons_self _ _)
      have hbr : eval.is_bracket top = false := is_op_not_br htop
      rw [pfLoop_op_cons hno ho hbr]
      by_cases hpr : eval.precedence o > eval.precedence top
      · rw [if_pos hpr]
        refine ih (out ++ [n]) (o :: top :: stkrest) (n :: vals) ?_ hout1 hev1 ?_
        · intro t ht
          rcases List.mem_cons.1 ht with rfl | h
          · exact ho
          · exact hstk t h
        · simp at hlen ⊢
          omega
      · rw [if_neg hpr]
        obtain ⟨vals₂, hv2, hl2⟩ := evalLoop_ops (top :: stkrest) (n :: vals) hstk
          (by simp at hlen ⊢; omega)
        have hev2 : eval.evalLoop ((out ++ [n]) ++ top :: stkrest) [] =
            some (vals₂, false) := by
          rw [evalLoop_append (out ++ [n]) (top :: stkrest) [] (n :: vals) hev1]
          exact hv2
        have hl2' : vals₂.length = 1 := by
          simp at hl2 hlen
          omega
        rw [show (out ++ [n]) ++ top :: stkrest = out ++ [n] ++ top :: stkrest from rfl]
          at hev2
        refine ih (out ++ [n] ++ top :: stkrest) [o] vals₂ ?_ ?_ hev2 ?_
        · intro t ht
          rcases List.mem_singleton.1 ht with rfl
          exact ho
        · intro t ht
          rcases List.mem_append.1 ht with h | h
          · exact hout1 t h
          · exact is_op_not_br (hstk t h)
        · simp [hl2']

/-- Decomposition of a passing structural validation: no prior lexing error,
no invalid kind, equal bracket counts, and one more number than operators. -/
lemma verify_false {err : Bool} {l : List token}
    (h : tokenizer.verify_tokenlist err l = false) :
    err = false ∧ tokenizer.hasUnknownKind l = false ∧
      tokenizer.countOfType token_type.open_bracket l =
        tokenizer.countOfType token_type.close_bracket l ∧
      tokenizer.countOfType token_type.number l = tokenizer.operationsCount l + 1 := by
  unfold tokenizer.verify_tokenlist at h
  by_cases he : err = true
  · rw [if_pos he] at h
    rw [he] at h
    exact absurd h (by simp)
  · rw [if_neg he] at h
    simp only [Bool.or_eq_false_iff, decide_eq_false_iff_not, not_not, ne_eq] at h
    exact ⟨by simpa using he, h.1.1, h.1.2, h.2⟩

/-- C2 (amended): for every input string accepted by the tokenizer whose
token sequence contains no bracket token, the postfix evaluation inside
solve never pops an operand stack holding fewer than two values — solve
completes (no undefined behavior) with the error flag unset.  With brackets
the guarantee fails, as the counterexample input "2(+)3" shows. -/
theorem C2_no_underflow (s : String)
    (herr : (tokenizer.parse s).error = false)
    (hnb : eval.checkForBrackets (tokenizer.parse s).tokens = false) :
    ∃ es, eval.solve (tokenizer.parse s).tokens = some es ∧ es.error = false := by
  have herr' : tokenizer.verify_tokenlist (tokenizer.parseLoop s.toList {}).error
      (tokenizer.parse s).tokens = false := herr
  obtain ⟨hlex, hnu, hbrkts, hcnt⟩ := verify_false herr'
  have hch := parse_chain s
  have hnbr : ∀ t ∈ (tokenizer.parse s).tokens, eval.is_bracket t = false := by
    simp only [eval.checkForBrackets, List.any_eq_false] at hnb
    intro t ht
    simpa using hnb t ht
  have hnuk : ∀ t ∈ (tokenizer.parse s).tokens, t.type ≠ token_type.unknown := by
    simp only [tokenizer.hasUnknownKind, List.any_eq_false, decide_eq_true_eq] at hnu
    exact hnu
  have hall : ∀ t ∈ (tokenizer.parse s).tokens,
      eval.is_number t = true ∨ eval.is_operator t = true := by
    intro t ht
    have h1 := hnuk t ht
    have h2 := hnbr t ht
    rcases t with ⟨tt, tx, tn⟩
    cases tt <;> simp_all [eval.is_number, eval.is_operator, eval.is_bracket,
      eval.is_open_bracket, eval.is_close_bracket]
  have hcount : numCountT (tokenizer.parse s).tokens =
      opCountT (tokenizer.parse s).tokens + 1 := by
    rw [← countOfType_number, ← operationsCount_eq]
    exact hcnt
  have hAlt := altOfCounts (tokenizer.parse s).tokens hall hch hcount
  obtain ⟨out', stk', vals', hpf, hstk', hout', hev', hlen'⟩ :=
    pfLoop_alt (tokenizer.parse s).tokens hAlt [] [] []
      (by intro t ht; simp at ht) (by intro t ht; simp at ht) rfl rfl
  have hcb : eval.checkForBrackets (out' ++ stk') = false := by
    simp only [eval.checkForBrackets, List.any_eq_false]
    intro t ht
    rcases List.mem_append.1 ht with h | h
    · simp [hout' t h]
    · simp [is_op_not_br (hstk' t h)]
  have hrpn : eval.toRpn (tokenizer.parse s).tokens = (out' ++ stk', false) := by
    unfold eval.toRpn
    simp only
    rw [hpf]
    simp [hcb]
  obtain ⟨vfin, hvfin, hlfin⟩ := evalLoop_ops stk' vals' hstk' (by omega)
  have hevfin : eval.evalLoop (out' ++ stk') [] = some (vfin, false) := by
    rw [evalLoop_append out' stk' [] vals' hev']
    exact hvfin
  have hvone : vfin.length = 1 := by omega
  rcases vfin with _ | ⟨v, vrest⟩
  · simp at hvone
  · refine ⟨{ tokens := out' ++ stk', error := false, result := v.number }, ?_, rfl⟩
    simp only [eval.solve, hrpn, hevfin]
    simp

/-- Witness for C2 (amended): the bracket-free accepted input "2+3" solves
without error. -/
theorem C2_no_underflow_witness :
    (tokenizer.parse srcPlain).error = false ∧
      eval.checkForBrackets (tokenizer.parse srcPlain).tokens = false ∧
      ∃ es, eval.solve (tokenizer.parse srcPlain).tokens = some es ∧ es.error = false :=
  ⟨by decide, by decide, C2_no_underflow srcPlain (by decide) (by decide)⟩
